import Mathlib

/-!
Shallow embedding of the Kaitai Struct runtime stream
(`src/kaitai/src/runtime/stream.rs`).

A `KStream` models a `std::io::Cursor<Vec<u8>>` — the concrete `Read + Seek`
byte source the runtime is exercised with — as the backing byte list plus the
cursor position.  Every method of the `KaitaiStream` trait takes the stream
and returns its `Result` together with the stream as the call leaves it
(Rust's `&mut self`), so that state on error paths is visible too.
-/

set_option maxRecDepth 10000

namespace KaitaiRs

/-- A single byte of the stream (Rust `u8`). -/
abbrev Byte := Fin 256

/-- Runtime errors, reconstructed from their construction sites in
`stream.rs`: `Error::EofBeforeTerminator(char)` carries the terminator's
code point, `Error::UnexpectedContents { actual, expected }` carries both
byte vectors, and `ioError` stands for any underlying `std::io::Error`
converted by `map_err(|e| e.into())` or the `?` operator. -/
inductive KError where
  | ioError : KError
  | eofBeforeTerminator : Nat → KError
  | unexpectedContents : List Byte → List Byte → KError
deriving DecidableEq, Repr

/-- The state of a `Cursor<Vec<u8>>`: the backing bytes and the cursor
position. -/
structure KStream where
  data : List Byte
  pos : Nat
deriving DecidableEq, Repr

/-- The `TerminatorFlags` pair passed to `read_bytes_term`. -/
structure TerminatorFlags where
  «include» : Bool
  consume : Bool
deriving DecidableEq, Repr

namespace KaitaiStream

/-- `Read::read_exact` on a cursor: succeeds with the next `n` bytes and
advances the position by exactly `n` when that many bytes remain before the
end; otherwise it fails (`UnexpectedEof`, an `std::io::Error`) with the
cursor left at the end of the data — the default `read_exact` keeps calling
`read` until a read returns zero bytes, so every remaining byte is consumed
before the error is reported (a cursor already past the end stays put). -/
def readExact (s : KStream) (n : Nat) : Except KError (List Byte) × KStream :=
  if s.pos + n ≤ s.data.length then
    (.ok ((s.data.drop s.pos).take n), { s with pos := s.pos + n })
  else
    (.error .ioError, { s with pos := max s.pos s.data.length })

/-- `is_eof`: reads one byte (a cursor read returns one byte when any
remains and zero bytes at the end, never failing), then unconditionally
seeks one byte backwards; the backward seek fails when it would move the
position before zero, and that failure propagates through `?`. -/
def is_eof (s : KStream) : Except KError Bool × KStream :=
  let n : Nat := if s.pos < s.data.length then 1 else 0
  let afterRead := s.pos + n
  if afterRead = 0 then
    (.error .ioError, { s with pos := afterRead })
  else
    (.ok (n == 0), { s with pos := afterRead - 1 })

/-- `pos`: `stream_position`, the current cursor position; no state
change. -/
def pos (s : KStream) : Except KError Nat × KStream :=
  (.ok s.pos, s)

/-- `size`: the nightly `Seek::stream_len` — record the position, seek to
the end to learn the length, then seek back unless the old position already
was the end. -/
def size (s : KStream) : Except KError Nat × KStream :=
  let old := s.pos
  let atEnd : KStream := { s with pos := s.data.length }
  let restored := if old ≠ s.data.length then { atEnd with pos := old } else atEnd
  (.ok s.data.length, restored)

/-- `read_bytes(count)`: `read_exact` into a fresh buffer of length
`count`. -/
def read_bytes (s : KStream) (count : Nat) : Except KError (List Byte) × KStream :=
  readExact s count

/-- One run of the `read_bytes_term` loop over the bytes remaining after the
cursor.  Returns the `Result` and the net number of positions the cursor
advanced: each one-byte read advances by one, and the backward seek taken in
the neither-include-nor-consume branch takes one back.  Finding the
terminator byte `b` (its value cast to `char` equal to `term`) ends the
loop: the `include` flag appends `b` to the buffer and returns without
seeking back; otherwise a clear `consume` flag seeks back onto the
terminator.  Running out of bytes is the `EofBeforeTerminator` error. -/
def readBytesTermLoop (term : Nat) (flags : TerminatorFlags) :
    List Byte → List Byte → Except KError (List Byte) × Nat
  | [], _ => (.error (.eofBeforeTerminator term), 0)
  | b :: rest, acc =>
    if b.val = term then
      if flags.«include» then (.ok (acc ++ [b]), 1)
      else if !flags.consume then (.ok acc, 0)
      else (.ok acc, 1)
    else
      let r := readBytesTermLoop term flags rest (acc ++ [b])
      (r.1, r.2 + 1)

/-- `read_bytes_term(term, flags)`: reads byte by byte until the byte, cast
to a `char`, equals the terminator `term` (modelled by its code point). -/
def read_bytes_term (s : KStream) (term : Nat) (flags : TerminatorFlags) :
    Except KError (List Byte) × KStream :=
  let r := readBytesTermLoop term flags (s.data.drop s.pos) []
  (r.1, { s with pos := s.pos + r.2 })

/-- `ensure_fixed_contents(expected)`: `read_exact` a buffer of
`expected.len()` bytes and compare it with `expected`; a mismatch is the
`UnexpectedContents` error carrying both the actual and the expected
bytes. -/
def ensure_fixed_contents (s : KStream) (expected : List Byte) :
    Except KError Unit × KStream :=
  match readExact s expected.length with
  | (.ok buf, s1) =>
    if buf = expected then (.ok (), s1)
    else (.error (.unexpectedContents buf expected), s1)
  | (.error e, s1) => (.error e, s1)

/-- Big-endian value of a byte list (`byteorder::BigEndian`). -/
def beVal : List Byte → Nat
  | [] => 0
  | b :: rest => b.val * 256 ^ rest.length + beVal rest

/-- Little-endian value of a byte list (`byteorder::LittleEndian`). -/
def leVal : List Byte → Nat
  | [] => 0
  | b :: rest => b.val + 256 * leVal rest

/-- Two's-complement reinterpretation of an unsigned `width`-byte value as
the signed Rust integer of the same width. -/
def toSigned (width v : Nat) : Int :=
  if v < 2 ^ (8 * width - 1) then (v : Int) else (v : Int) - 2 ^ (8 * width)

/-- Unsigned big-endian read of `width` bytes (`byteorder`'s
`read_uN::<BigEndian>`, built on `read_exact`). -/
def readUnsignedBe (s : KStream) (width : Nat) : Except KError Nat × KStream :=
  match readExact s width with
  | (.ok bs, s1) => (.ok (beVal bs), s1)
  | (.error e, s1) => (.error e, s1)

/-- Unsigned little-endian read of `width` bytes (`byteorder`'s
`read_uN::<LittleEndian>`). -/
def readUnsignedLe (s : KStream) (width : Nat) : Except KError Nat × KStream :=
  match readExact s width with
  | (.ok bs, s1) => (.ok (leVal bs), s1)
  | (.error e, s1) => (.error e, s1)

/-- Signed big-endian read of `width` bytes (`byteorder`'s
`read_iN::<BigEndian>`). -/
def readSignedBe (s : KStream) (width : Nat) : Except KError Int × KStream :=
  match readExact s width with
  | (.ok bs, s1) => (.ok (toSigned width (beVal bs)), s1)
  | (.error e, s1) => (.error e, s1)

/-- Signed little-endian read of `width` bytes (`byteorder`'s
`read_iN::<LittleEndian>`). -/
def readSignedLe (s : KStream) (width : Nat) : Except KError Int × KStream :=
  match readExact s width with
  | (.ok bs, s1) => (.ok (toSigned width (leVal bs)), s1)
  | (.error e, s1) => (.error e, s1)

/-- Reads in a `u8` (KS: `u1`); a single byte has no endianness. -/
def read_u1 (s : KStream) : Except KError Nat × KStream := readUnsignedBe s 1

/-- Reads in an `i8` (KS: `s1`); a single byte has no endianness. -/
def read_s1 (s : KStream) : Except KError Int × KStream := readSignedBe s 1

/-- Reads in a little endian `u16` (KS: `u2`). -/
def read_u2le (s : KStream) : Except KError Nat × KStream := readUnsignedLe s 2

/-- Reads in a big endian `u16` (KS: `u2`). -/
def read_u2be (s : KStream) : Except KError Nat × KStream := readUnsignedBe s 2

/-- Reads in a little endian `u32` (KS: `u4`). -/
def read_u4le (s : KStream) : Except KError Nat × KStream := readUnsignedLe s 4

/-- Reads in a big endian `u32` (KS: `u4`). -/
def read_u4be (s : KStream) : Except KError Nat × KStream := readUnsignedBe s 4

/-- Reads in a little endian `u64` (KS: `u8`). -/
def read_u8le (s : KStream) : Except KError Nat × KStream := readUnsignedLe s 8

/-- Reads in a big endian `u64` (KS: `u8`). -/
def read_u8be (s : KStream) : Except KError Nat × KStream := readUnsignedBe s 8

/-- Reads in a little endian `i16` (KS: `s2`). -/
def read_s2le (s : KStream) : Except KError Int × KStream := readSignedLe s 2

/-- Reads in a big endian `i16` (KS: `s2`). -/
def read_s2be (s : KStream) : Except KError Int × KStream := readSignedBe s 2

/-- Reads in a little endian `i32` (KS: `s4`). -/
def read_s4le (s : KStream) : Except KError Int × KStream := readSignedLe s 4

/-- Reads in a big endian `i32` (KS: `s4`). -/
def read_s4be (s : KStream) : Except KError Int × KStream := readSignedBe s 4

/-- Reads in a little endian `i64` (KS: `s8`). -/
def read_s8le (s : KStream) : Except KError Int × KStream := readSignedLe s 8

/-- Reads in a big endian `i64` (KS: `s8`). -/
def read_s8be (s : KStream) : Except KError Int × KStream := readSignedBe s 8

/-- The byte sequence the runtime's integer-read tests use. -/
def data18 : List Byte := [1, 2, 3, 4, 5, 6, 7, 8]

/-- The byte sequence `[0..9]` of the terminator and cursor tests. -/
def data10 : List Byte := [0, 1, 2, 3, 4, 5, 6, 7, 8, 9]

/-- `read_exact` succeeds, returning the next `n` bytes and advancing the
position by `n`, whenever `n` bytes remain. -/
theorem readExact_ok {s : KStream} {n : Nat} (h : s.pos + n ≤ s.data.length) :
    readExact s n = (.ok ((s.data.drop s.pos).take n), { s with pos := s.pos + n }) := by
  simp [readExact, h]

/-- `read_exact` fails, having consumed every remaining byte, when fewer
than `n` bytes remain. -/
theorem readExact_err {s : KStream} {n : Nat} (h : s.data.length < s.pos + n) :
    readExact s n = (.error .ioError, { s with pos := max s.pos s.data.length }) := by
  rw [readExact, if_neg (by omega)]

/-- Full characterisation of `ensure_fixed_contents` when enough bytes
remain: the next `expected.length` bytes are consumed either way, and the
call succeeds exactly when they equal `expected`, otherwise reporting both
actual and expected bytes. -/
theorem ensure_fixed_contents_eq (s : KStream) (expected : List Byte)
    (h : s.pos + expected.length ≤ s.data.length) :
    ensure_fixed_contents s expected =
      (if (s.data.drop s.pos).take expected.length = expected then .ok ()
       else .error (.unexpectedContents ((s.data.drop s.pos).take expected.length) expected),
       { s with pos := s.pos + expected.length }) := by
  by_cases hc : (s.data.drop s.pos).take expected.length = expected <;>
    simp [ensure_fixed_contents, readExact_ok h, hc]

/-- When no remaining byte matches, the `read_bytes_term` loop consumes the
whole remainder and fails naming the terminator. -/
theorem readBytesTermLoop_not_found (term : Nat) (flags : TerminatorFlags)
    (rem : List Byte) (acc : List Byte) (h : ∀ b ∈ rem, b.val ≠ term) :
    readBytesTermLoop term flags rem acc = (.error (.eofBeforeTerminator term), rem.length) := by
  induction rem generalizing acc with
  | nil => rfl
  | cons b rest ih =>
    have hb : b.val ≠ term := h b (by simp)
    have hrest : ∀ x ∈ rest, x.val ≠ term := fun x hx => h x (by simp [hx])
    simp [readBytesTermLoop, hb, ih (acc ++ [b]) hrest]

/-- When the remainder splits as `pre ++ b :: suf` with `b` the first
matching byte, the `read_bytes_term` loop returns the accumulator followed
by `pre`, with `b` appended exactly when `include` is set, and the cursor
has netted `pre.length` forward plus one more unless both flags are
clear. -/
theorem readBytesTermLoop_found (term : Nat) (flags : TerminatorFlags)
    (b : Byte) (suf : List Byte) (hb : b.val = term) :
    ∀ (pre acc : List Byte), (∀ x ∈ pre, x.val ≠ term) →
      readBytesTermLoop term flags (pre ++ b :: suf) acc =
        (.ok (acc ++ pre ++ if flags.«include» then [b] else []),
         pre.length + if flags.«include» || flags.consume then 1 else 0) := by
  intro pre
  induction pre with
  | nil =>
    intro acc _
    rcases flags with ⟨inc, con⟩
    cases inc <;> cases con <;> simp [readBytesTermLoop, hb]
  | cons x pre ih =>
    intro acc hpre
    have hx : x.val ≠ term := hpre x (by simp)
    have hpre2 : ∀ y ∈ pre, y.val ≠ term := fun y hy => hpre y (by simp [hy])
    simp only [List.cons_append]
    simp [readBytesTermLoop, hx, ih (acc ++ [x]) hpre2]
    omega

/-- Shared characterisation of `read_bytes_term` when the terminator never
occurs among the remaining bytes: the whole remainder is consumed and the
call fails naming the terminator. -/
theorem read_bytes_term_no_match (s : KStream) (term : Nat) (flags : TerminatorFlags)
    (hterm : ∀ b ∈ s.data.drop s.pos, b.val ≠ term) (hpos : s.pos ≤ s.data.length) :
    read_bytes_term s term flags =
      (.error (.eofBeforeTerminator term), ⟨s.data, s.data.length⟩) := by
  rcases s with ⟨d, p⟩
  simp only [read_bytes_term, readBytesTermLoop_not_found term flags _ [] hterm]
  simp only [List.length_drop]
  have : p + (d.length - p) = d.length := by
    simp only [KStream.mk.injEq] at hpos ⊢
    omega
  simp [this]

/-- An unsigned big-endian read of `width` bytes succeeds, consuming
exactly `width` bytes, whenever that many remain. -/
theorem readUnsignedBe_ok {s : KStream} {w : Nat} (h : s.pos + w ≤ s.data.length) :
    readUnsignedBe s w =
      (.ok (beVal ((s.data.drop s.pos).take w)), { s with pos := s.pos + w }) := by
  simp [readUnsignedBe, readExact_ok h]

/-- An unsigned little-endian read of `width` bytes succeeds, consuming
exactly `width` bytes, whenever that many remain. -/
theorem readUnsignedLe_ok {s : KStream} {w : Nat} (h : s.pos + w ≤ s.data.length) :
    readUnsignedLe s w =
      (.ok (leVal ((s.data.drop s.pos).take w)), { s with pos := s.pos + w }) := by
  simp [readUnsignedLe, readExact_ok h]

/-- A signed big-endian read of `width` bytes succeeds, consuming exactly
`width` bytes, whenever that many remain. -/
theorem readSignedBe_ok {s : KStream} {w : Nat} (h : s.pos + w ≤ s.data.length) :
    readSignedBe s w =
      (.ok (toSigned w (beVal ((s.data.drop s.pos).take w))), { s with pos := s.pos + w }) := by
  simp [readSignedBe, readExact_ok h]

/-- A signed little-endian read of `width` bytes succeeds, consuming
exactly `width` bytes, whenever that many remain. -/
theorem readSignedLe_ok {s : KStream} {w : Nat} (h : s.pos + w ≤ s.data.length) :
    readSignedLe s w =
      (.ok (toSigned w (leVal ((s.data.drop s.pos).take w))), { s with pos := s.pos + w }) := by
  simp [readSignedLe, readExact_ok h]

/-- C1 (divergence witness): on the stream `[0..9]` with terminator `3`,
consume-only flags return `[0,1,2]` and leave the cursor at position 4,
past the terminator — but include-only flags (include set, consume clear)
also leave the cursor at position 4, past the terminator, not at position 3
on the terminator as the claim (and the function's own doc comment)
requires when `consume` is not set. -/
theorem read_bytes_term_include_without_consume_overconsumes :
    read_bytes_term ⟨data10, 0⟩ 3 ⟨false, true⟩ = (.ok [0, 1, 2], ⟨data10, 4⟩) ∧
    read_bytes_term ⟨data10, 0⟩ 3 ⟨true, false⟩ = (.ok [0, 1, 2, 3], ⟨data10, 4⟩) ∧
    (read_bytes_term ⟨data10, 0⟩ 3 ⟨true, false⟩).2.pos ≠ 3 := by
  refine ⟨rfl, rfl, by decide⟩

/-- C2: whenever the bytes remaining after the cursor contain the
terminator — they split as `pre ++ b :: suf` with no byte of `pre` matching
and `b.val = term` — `read_bytes_term` returns exactly the bytes strictly
preceding the first occurrence, with the terminator byte appended if and
only if the `include` flag is set. -/
theorem read_bytes_term_returns_bytes_before_terminator
    (s : KStream) (term : Nat) (flags : TerminatorFlags)
    (pre : List Byte) (b : Byte) (suf : List Byte)
    (hsplit : s.data.drop s.pos = pre ++ b :: suf)
    (hpre : ∀ x ∈ pre, x.val ≠ term) (hb : b.val = term) :
    (read_bytes_term s term flags).1 =
      .ok (pre ++ if flags.«include» then [b] else []) := by
  simp [read_bytes_term, hsplit, readBytesTermLoop_found term flags b suf hb pre [] hpre]

/-- Witness for C2 at a concrete input: stream `[5,6,7,8]`, terminator `7`,
include-only flags. -/
theorem read_bytes_term_returns_bytes_before_terminator_witness :
    (read_bytes_term ⟨[5, 6, 7, 8], 0⟩ 7 ⟨true, false⟩).1 = .ok [5, 6, 7] ∧
    (read_bytes_term ⟨[5, 6, 7, 8], 0⟩ 7 ⟨false, true⟩).1 = .ok [5, 6] := by
  constructor
  · have h := read_bytes_term_returns_bytes_before_terminator ⟨[5, 6, 7, 8], 0⟩ 7
      ⟨true, false⟩ [5, 6] 7 [8] (by decide) (by decide) (by decide)
    simpa using h
  · have h := read_bytes_term_returns_bytes_before_terminator ⟨[5, 6, 7, 8], 0⟩ 7
      ⟨false, true⟩ [5, 6] 7 [8] (by decide) (by decide) (by decide)
    simpa using h

/-- C3: with enough bytes remaining, `ensure_fixed_contents(expected)`
reads exactly `expected.length` bytes, succeeds if and only if they equal
`expected`, on mismatch reports both the actual bytes read and the expected
bytes, and in either case leaves the cursor advanced past the bytes
read. -/
theorem ensure_fixed_contents_spec (s : KStream) (expected : List Byte)
    (h : s.pos + expected.length ≤ s.data.length) :
    ensure_fixed_contents s expected =
      (if (s.data.drop s.pos).take expected.length = expected then .ok ()
       else .error (.unexpectedContents ((s.data.drop s.pos).take expected.length) expected),
       { s with pos := s.pos + expected.length }) :=
  ensure_fixed_contents_eq s expected h

/-- Witness for C3 at concrete inputs: a matching and a mismatching
comparison over `[0..9]`. -/
theorem ensure_fixed_contents_spec_witness :
    ensure_fixed_contents ⟨data10, 0⟩ [0, 1, 2] = (.ok (), ⟨data10, 3⟩) ∧
    ensure_fixed_contents ⟨data10, 7⟩ [8, 8, 8] =
      (.error (.unexpectedContents [7, 8, 9] [8, 8, 8]), ⟨data10, 10⟩) := by
  constructor
  · have h := ensure_fixed_contents_spec ⟨data10, 0⟩ [0, 1, 2] (by decide)
    rw [h]; rfl
  · have h := ensure_fixed_contents_spec ⟨data10, 7⟩ [8, 8, 8] (by decide)
    rw [h]; rfl

/-- C4: every fixed-width integer read — the hand-written `read_u1` and
`read_s1` plus the entire family emitted by `generate_read_functions`
(`u2`/`u4`/`u8` and `s2`/`s4`/`s8`, each `le` and `be`) — consumes exactly
its width in bytes and interprets them with the stated sign and
endianness; on the bytes `[1,2,3,4,5,6,7,8]` every member yields its
documented value, in particular `read_s4be` yields `16909060`, `read_s4le`
yields `67305985`, and `read_u1` yields `1`. -/
theorem fixed_width_integer_reads (s : KStream) :
    (s.pos + 1 ≤ s.data.length →
      read_u1 s = (.ok (beVal ((s.data.drop s.pos).take 1)),
        { s with pos := s.pos + 1 }) ∧
      read_s1 s = (.ok (toSigned 1 (beVal ((s.data.drop s.pos).take 1))),
        { s with pos := s.pos + 1 })) ∧
    (s.pos + 2 ≤ s.data.length →
      read_u2be s = (.ok (beVal ((s.data.drop s.pos).take 2)),
        { s with pos := s.pos + 2 }) ∧
      read_u2le s = (.ok (leVal ((s.data.drop s.pos).take 2)),
        { s with pos := s.pos + 2 }) ∧
      read_s2be s = (.ok (toSigned 2 (beVal ((s.data.drop s.pos).take 2))),
        { s with pos := s.pos + 2 }) ∧
      read_s2le s = (.ok (toSigned 2 (leVal ((s.data.drop s.pos).take 2))),
        { s with pos := s.pos + 2 })) ∧
    (s.pos + 4 ≤ s.data.length →
      read_u4be s = (.ok (beVal ((s.data.drop s.pos).take 4)),
        { s with pos := s.pos + 4 }) ∧
      read_u4le s = (.ok (leVal ((s.data.drop s.pos).take 4)),
        { s with pos := s.pos + 4 }) ∧
      read_s4be s = (.ok (toSigned 4 (beVal ((s.data.drop s.pos).take 4))),
        { s with pos := s.pos + 4 }) ∧
      read_s4le s = (.ok (toSigned 4 (leVal ((s.data.drop s.pos).take 4))),
        { s with pos := s.pos + 4 })) ∧
    (s.pos + 8 ≤ s.data.length →
      read_u8be s = (.ok (beVal ((s.data.drop s.pos).take 8)),
        { s with pos := s.pos + 8 }) ∧
      read_u8le s = (.ok (leVal ((s.data.drop s.pos).take 8)),
        { s with pos := s.pos + 8 }) ∧
      read_s8be s = (.ok (toSigned 8 (beVal ((s.data.drop s.pos).take 8))),
        { s with pos := s.pos + 8 }) ∧
      read_s8le s = (.ok (toSigned 8 (leVal ((s.data.drop s.pos).take 8))),
        { s with pos := s.pos + 8 })) ∧
    read_u1 ⟨data18, 0⟩ = (.ok 1, ⟨data18, 1⟩) ∧
    read_s1 ⟨data18, 0⟩ = (.ok 1, ⟨data18, 1⟩) ∧
    read_u2be ⟨data18, 0⟩ = (.ok 258, ⟨data18, 2⟩) ∧
    read_u2le ⟨data18, 0⟩ = (.ok 513, ⟨data18, 2⟩) ∧
    read_s2be ⟨data18, 0⟩ = (.ok 258, ⟨data18, 2⟩) ∧
    read_s2le ⟨data18, 0⟩ = (.ok 513, ⟨data18, 2⟩) ∧
    read_u4be ⟨data18, 0⟩ = (.ok 16909060, ⟨data18, 4⟩) ∧
    read_u4le ⟨data18, 0⟩ = (.ok 67305985, ⟨data18, 4⟩) ∧
    read_s4be ⟨data18, 0⟩ = (.ok 16909060, ⟨data18, 4⟩) ∧
    read_s4le ⟨data18, 0⟩ = (.ok 67305985, ⟨data18, 4⟩) ∧
    read_u8be ⟨data18, 0⟩ = (.ok 72623859790382856, ⟨data18, 8⟩) ∧
    read_u8le ⟨data18, 0⟩ = (.ok 578437695752307201, ⟨data18, 8⟩) ∧
    read_s8be ⟨data18, 0⟩ = (.ok 72623859790382856, ⟨data18, 8⟩) ∧
    read_s8le ⟨data18, 0⟩ = (.ok 578437695752307201, ⟨data18, 8⟩) := by
  refine ⟨fun h => ⟨readUnsignedBe_ok h, readSignedBe_ok h⟩,
    fun h => ⟨readUnsignedBe_ok h, readUnsignedLe_ok h, readSignedBe_ok h, readSignedLe_ok h⟩,
    fun h => ⟨readUnsignedBe_ok h, readUnsignedLe_ok h, readSignedBe_ok h, readSignedLe_ok h⟩,
    fun h => ⟨readUnsignedBe_ok h, readUnsignedLe_ok h, readSignedBe_ok h, readSignedLe_ok h⟩,
    rfl, rfl, rfl, rfl, rfl, rfl, rfl, rfl, rfl, rfl, rfl, rfl, rfl, rfl⟩

/-- Witness for C4: the general clause of each width instantiated on the
test bytes `[1,2,3,4,5,6,7,8]`. -/
theorem fixed_width_integer_reads_witness :
    read_u1 ⟨data18, 0⟩ = (.ok 1, ⟨data18, 1⟩) ∧
    read_u2be ⟨data18, 0⟩ = (.ok 258, ⟨data18, 2⟩) ∧
    read_s4be ⟨data18, 0⟩ = (.ok 16909060, ⟨data18, 4⟩) ∧
    read_u8le ⟨data18, 0⟩ = (.ok 578437695752307201, ⟨data18, 8⟩) := by
  have h := fixed_width_integer_reads ⟨data18, 0⟩
  exact ⟨((h.1 (by decide)).1).trans (by rfl),
    ((h.2.1 (by decide)).1).trans (by rfl),
    ((h.2.2.1 (by decide)).2.2.1).trans (by rfl),
    ((h.2.2.2.1 (by decide)).2.1).trans (by rfl)⟩

/-- C5: when the terminator occurs nowhere in the remaining bytes,
`read_bytes_term` consumes the remainder and fails with the error naming
the terminator sought — it never returns a truncated result as success. -/
theorem read_bytes_term_missing_terminator_errors
    (s : KStream) (term : Nat) (flags : TerminatorFlags)
    (hterm : ∀ b ∈ s.data.drop s.pos, b.val ≠ term) (hpos : s.pos ≤ s.data.length) :
    read_bytes_term s term flags =
      (.error (.eofBeforeTerminator term), ⟨s.data, s.data.length⟩) :=
  read_bytes_term_no_match s term flags hterm hpos

/-- Witness for C5: the last line of the runtime's own test — terminator
`0x15` is absent from `[0..9]`. -/
theorem read_bytes_term_missing_terminator_errors_witness :
    read_bytes_term ⟨data10, 9⟩ 21 ⟨false, false⟩ =
      (.error (.eofBeforeTerminator 21), ⟨data10, 10⟩) := by
  have h := read_bytes_term_missing_terminator_errors ⟨data10, 9⟩ 21 ⟨false, false⟩
    (by decide) (by decide)
  simpa using h

/-- C6: `read_bytes(count)` returns exactly `count` bytes taken from the
current position and advances the position by `count` when at least `count`
bytes remain; when fewer remain it returns an error, not a short read. -/
theorem read_bytes_exact_or_error (s : KStream) (count : Nat) :
    (s.pos + count ≤ s.data.length →
      read_bytes s count =
        (.ok ((s.data.drop s.pos).take count), { s with pos := s.pos + count }) ∧
      ((s.data.drop s.pos).take count).length = count) ∧
    (s.data.length < s.pos + count →
      read_bytes s count = (.error .ioError, { s with pos := max s.pos s.data.length })) := by
  constructor
  · intro h
    refine ⟨readExact_ok h, ?_⟩
    simp only [List.length_take, List.length_drop]
    omega
  · intro h
    exact readExact_err h

/-- Witness for C6: an in-bounds and an out-of-bounds read of `[0..9]`; the
failed read reports the error with the cursor run to the end of the
data. -/
theorem read_bytes_exact_or_error_witness :
    read_bytes ⟨data10, 0⟩ 2 = (.ok [0, 1], ⟨data10, 2⟩) ∧
    read_bytes ⟨data10, 8⟩ 5 = (.error .ioError, ⟨data10, 10⟩) := by
  refine ⟨((read_bytes_exact_or_error ⟨data10, 0⟩ 2).1 (by decide)).1.trans (by rfl),
    ((read_bytes_exact_or_error ⟨data10, 8⟩ 5).2 (by decide)).trans (by rfl)⟩

/-- C7: a successful `ensure_fixed_contents` call advances the cursor by
exactly the expected length, so the next call compares against the bytes
immediately after — never re-reading consumed bytes — and a mismatched
second call fails with the cursor in the determinate state past the bytes
it read, its error naming exactly those bytes. -/
theorem ensure_fixed_contents_sequential (data : List Byte) (p : Nat) (e1 e2 : List Byte)
    (h1 : (data.drop p).take e1.length = e1)
    (h2 : p + e1.length + e2.length ≤ data.length) :
    ensure_fixed_contents ⟨data, p⟩ e1 = (.ok (), ⟨data, p + e1.length⟩) ∧
    (ensure_fixed_contents ⟨data, p + e1.length⟩ e2).2 = ⟨data, p + e1.length + e2.length⟩ ∧
    ((ensure_fixed_contents ⟨data, p + e1.length⟩ e2).1 = .ok () ↔
      (data.drop (p + e1.length)).take e2.length = e2) ∧
    ((data.drop (p + e1.length)).take e2.length ≠ e2 →
      (ensure_fixed_contents ⟨data, p + e1.length⟩ e2).1 =
        .error (.unexpectedContents ((data.drop (p + e1.length)).take e2.length) e2)) := by
  have hA : p + e1.length ≤ data.length := by omega
  have r1 := ensure_fixed_contents_eq ⟨data, p⟩ e1 hA
  have r2 := ensure_fixed_contents_eq ⟨data, p + e1.length⟩ e2 h2
  simp only at r1 r2
  refine ⟨?_, ?_, ?_, ?_⟩
  · rw [r1]
    simp [h1]
  · rw [r2]
  · rw [r2]
    by_cases hc : (data.drop (p + e1.length)).take e2.length = e2 <;> simp [hc]
  · intro hne
    rw [r2]
    simp [hne]

/-- Witness for C7: two back-to-back matching comparisons over
`[0,1,2,3]`. -/
theorem ensure_fixed_contents_sequential_witness :
    ensure_fixed_contents ⟨[0, 1, 2, 3], 0⟩ [0, 1] = (.ok (), ⟨[0, 1, 2, 3], 2⟩) ∧
    (ensure_fixed_contents ⟨[0, 1, 2, 3], 2⟩ [2, 3]).2 = ⟨[0, 1, 2, 3], 4⟩ := by
  have h := ensure_fixed_contents_sequential [0, 1, 2, 3] 0 [0, 1] [2, 3]
    (by decide) (by decide)
  exact ⟨h.1, h.2.1⟩

/-- C8 counterexample: on the empty stream at position zero the one-byte
read returns zero bytes — the stream is at its end — yet `is_eof` does not
return `true`: the unconditional backward seek fails and the error
propagates. -/
theorem is_eof_empty_stream_counterexample :
    ((⟨[], 0⟩ : KStream)).data.length ≤ ((⟨[], 0⟩ : KStream)).pos ∧
    (is_eof ⟨[], 0⟩).1 = .error .ioError ∧
    (is_eof ⟨[], 0⟩).1 ≠ .ok true := by
  refine ⟨Nat.le_refl 0, rfl, ?_⟩
  simp [is_eof]

/-- C8 (amended): when the stream is not at its end `is_eof` returns
`false` with the position unchanged; when it is at its end with nonzero
position it returns `true` and moves the position one byte backwards; but
at the end with position zero (the empty stream) the unconditional backward
seek fails and `is_eof` returns an error, the position unchanged. -/
theorem is_eof_spec (s : KStream) :
    (s.pos < s.data.length → is_eof s = (.ok false, s)) ∧
    (s.data.length ≤ s.pos → 0 < s.pos →
      is_eof s = (.ok true, { s with pos := s.pos - 1 })) ∧
    (s.data.length ≤ s.pos → s.pos = 0 → is_eof s = (.error .ioError, s)) := by
  refine ⟨fun h => ?_, fun h h0 => ?_, fun h h0 => ?_⟩
  · simp [is_eof, h]
  · have hn : ¬ s.pos < s.data.length := by omega
    simp [is_eof, hn]
    omega
  · rcases s with ⟨d, p⟩
    simp only at h h0
    subst h0
    have hd : d = [] := List.length_eq_zero.mp (by omega)
    subst hd
    rfl

/-- Witness for C8: all three branches at concrete streams. -/
theorem is_eof_spec_witness :
    is_eof ⟨[0], 0⟩ = (.ok false, ⟨[0], 0⟩) ∧
    is_eof ⟨[0], 1⟩ = (.ok true, ⟨[0], 0⟩) ∧
    is_eof ⟨[], 0⟩ = (.error .ioError, ⟨[], 0⟩) :=
  ⟨(is_eof_spec ⟨[0], 0⟩).1 (by decide),
   (is_eof_spec ⟨[0], 1⟩).2.1 (by decide) (by decide),
   (is_eof_spec ⟨[], 0⟩).2.2 (by decide) (by decide)⟩

/-- C9: the byte read is compared, cast to a `char`, against the `char`
terminator, so a terminator whose code point exceeds 255 can never match a
byte: `read_bytes_term` consumes every remaining byte and fails with the
end-of-file-before-terminator error naming the terminator. -/
theorem read_bytes_term_wide_terminator_always_fails
    (s : KStream) (term : Nat) (flags : TerminatorFlags)
    (hterm : 255 < term) (hpos : s.pos ≤ s.data.length) :
    read_bytes_term s term flags =
      (.error (.eofBeforeTerminator term), ⟨s.data, s.data.length⟩) := by
  have h : ∀ b ∈ s.data.drop s.pos, b.val ≠ term := by
    intro b _
    have := b.isLt
    omega
  exact read_bytes_term_no_match s term flags h hpos

/-- Witness for C9: terminator `0x100` on the stream `[0..9]`. -/
theorem read_bytes_term_wide_terminator_always_fails_witness :
    read_bytes_term ⟨data10, 0⟩ 256 ⟨true, true⟩ =
      (.error (.eofBeforeTerminator 256), ⟨data10, 10⟩) := by
  have h := read_bytes_term_wide_terminator_always_fails ⟨data10, 0⟩ 256 ⟨true, true⟩
    (by decide) (by decide)
  simpa using h

/-- C10: `size` returns the total length of the backing bytes — independent
of the cursor — and restores the position it found, while `pos` returns the
current position and changes nothing. -/
theorem size_and_pos_pure (s : KStream) :
    size s = (.ok s.data.length, s) ∧ pos s = (.ok s.pos, s) := by
  constructor
  · rcases s with ⟨d, p⟩
    by_cases h : p = d.length
    · subst h
      simp [size]
    · simp [size, h]
  · rfl

end KaitaiStream

end KaitaiRs
